import Mathlib

/-!
Verification development for the benchcompress repository: a shallow
embedding of the benchmark orchestration and caching engine described in
the specification, together with the web dashboard pages present in the
repository (`web-ui/src/types.ts`, `web-ui/src/pages/Monitor.tsx`,
`web-ui/src/pages/Algorithm.tsx`).

The repository slice ships only the peripheral web code; the core engine
(registry, fingerprint cache, execution engine, verifier, result store,
orchestrator) is absent from the slice, so those parts are modelled from
the specification, as noted on each definition.
-/

/-! ## Arrays and the verifier -/

/-- Modelled from the spec: a scientific data array with a shape, a numpy
dtype name, and element data (numeric values as rationals). -/
structure NDArray where
  shape : List ℕ
  dtype : String
  data : List ℚ
deriving DecidableEq

/-- Modelled from the spec: a numeric tolerance declared by a lossy
algorithm, with an absolute and a relative bound. -/
structure Tolerance where
  atol : ℚ
  rtol : ℚ
deriving DecidableEq

/-- Modelled from the spec: byte width of a numpy dtype, used to compute
`original_size` of an array. Unknown dtypes count one byte per element. -/
def dtypeItemSize : String → ℕ
  | "int16" => 2
  | "uint16" => 2
  | "int32" => 4
  | "uint32" => 4
  | "int64" => 8
  | "uint64" => 8
  | "float32" => 4
  | "float64" => 8
  | _ => 1

/-- Modelled from the spec: size in bytes of an array. -/
def arrayByteSize (a : NDArray) : ℕ :=
  a.data.length * dtypeItemSize a.dtype

/-- Modelled from the spec: the Verifier.  With no tolerance the check is
exact equality (element-wise, shape and dtype must match); with a declared
tolerance the comparison is element-wise with both absolute and relative
bounds combined in the numpy `allclose` style. -/
def verify (orig dec : NDArray) (tol : Option Tolerance) : Bool :=
  match tol with
  | none =>
      decide (dec.shape = orig.shape) && decide (dec.dtype = orig.dtype) &&
        decide (dec.data = orig.data)
  | some t =>
      decide (dec.shape = orig.shape) && decide (dec.dtype = orig.dtype) &&
        decide (dec.data.length = orig.data.length) &&
        (List.zipWith (fun o d => decide (|o - d| ≤ t.atol + t.rtol * |o|))
          orig.data dec.data).all id

/-! ## Components and keys -/

/-- Modelled from the spec: a dataset component of the registry.  The
generator is modelled as the raw array it produces. -/
structure DatasetComponent where
  name : String
  version : String
  shape : List ℕ
  dtype : String
  generate : NDArray

/-- Modelled from the spec: an algorithm component of the registry, with
its compatibility predicate, encode and decode operations (bytes are
naturals), and optional declared tolerance. -/
structure AlgorithmComponent where
  name : String
  version : String
  tags : List String
  compatible : DatasetComponent → Bool
  encode : NDArray → List ℕ
  decode : List ℕ → NDArray
  tolerance : Option Tolerance

/-- Modelled from the spec: the tolerance actually used by verification:
only algorithms tagged "lossy" may use their declared tolerance; all
others are verified with exact equality. -/
def effectiveTolerance (a : AlgorithmComponent) : Option Tolerance :=
  if "lossy" ∈ a.tags then a.tolerance else none

/-- Modelled from the spec: the round-trip contract every algorithm
implementation must satisfy (the concrete encode and decode
implementations are absent from the repository slice): on every valid
input, the Verifier accepts the decoded output of the encoded array under
the algorithm's effective tolerance.  Validity of inputs is the
algorithm family's own notion, passed as a predicate. -/
def RoundTripContract (a : AlgorithmComponent) (valid : NDArray → Prop) : Prop :=
  ∀ x, valid x → verify x (a.decode (a.encode x)) (effectiveTolerance a) = true

/-- Modelled from the spec: the cache identity of one benchmark unit; two
keys are equal iff all four fields match exactly. -/
structure BenchmarkKey where
  dataset_name : String
  algorithm_name : String
  dataset_version : String
  algorithm_version : String
deriving DecidableEq

/-- The result record, as persisted and served to the dashboard; the field
set is the one of `BenchmarkResult` in `web-ui/src/types.ts`.  Floats are
modelled as rationals. -/
structure BenchmarkResult where
  dataset : String
  algorithm : String
  algorithm_version : String
  dataset_version : String
  system_version : String
  compression_ratio : ℚ
  encode_time : ℚ
  decode_time : ℚ
  encode_mb_per_sec : ℚ
  decode_mb_per_sec : ℚ
  original_size : ℕ
  compressed_size : ℕ
  array_shape : List ℕ
  array_dtype : String
  timestamp : ℚ
deriving DecidableEq

/-- One entry of `completed_benchmarks` in the progress record, as in the
`BenchmarkStatus` interface of `web-ui/src/pages/Monitor.tsx`. -/
structure CompletedSummary where
  dataset : String
  algorithm : String
  compression_ratio : ℚ
  encode_time : ℚ
  decode_time : ℚ
deriving DecidableEq

/-- The summary of a result that the progress record accumulates. -/
def BenchmarkResult.summary (r : BenchmarkResult) : CompletedSummary :=
  { dataset := r.dataset
    algorithm := r.algorithm
    compression_ratio := r.compression_ratio
    encode_time := r.encode_time
    decode_time := r.decode_time }

/-- Modelled from the spec: the run-progress snapshot, with the field set
of the `BenchmarkStatus` interface of `web-ui/src/pages/Monitor.tsx`. -/
structure RunProgress where
  current_dataset : String
  current_algorithm : String
  completed_count : ℕ
  total_count : ℕ
  progress_percentage : ℚ
  elapsed_time : ℚ
  last_update : String
  completed_benchmarks : List CompletedSummary

/-- Modelled from the spec: progress update after a terminal transition
(Stored or Failed) of one key; `sum?` is the completed summary for a
stored result and `none` for a failed pair. -/
def RunProgress.advance (p : RunProgress) (k : BenchmarkKey)
    (sum? : Option CompletedSummary) (elapsed : ℚ) (lu : String) : RunProgress :=
  { current_dataset := k.dataset_name
    current_algorithm := k.algorithm_name
    completed_count := p.completed_count + 1
    total_count := p.total_count
    progress_percentage := ((p.completed_count + 1 : ℚ) / (p.total_count : ℚ)) * 100
    elapsed_time := elapsed
    last_update := lu
    completed_benchmarks :=
      p.completed_benchmarks ++ (match sum? with | some c => [c] | none => []) }

/-- Modelled from the spec: a fresh progress snapshot at run start. -/
def initProgress (total : ℕ) : RunProgress :=
  { current_dataset := ""
    current_algorithm := ""
    completed_count := 0
    total_count := total
    progress_percentage := 0
    elapsed_time := 0
    last_update := ""
    completed_benchmarks := [] }

/-! ## The two-tier fingerprint cache -/

/-- Modelled from the spec: the two tiers of the fingerprint cache, each an
association list from benchmark keys to previously verified results. -/
structure FingerprintCache where
  localEntries : List (BenchmarkKey × BenchmarkResult)
  remoteEntries : List (BenchmarkKey × BenchmarkResult)
deriving DecidableEq

/-- Lookup of a key in one cache tier. -/
def lookupEntry (es : List (BenchmarkKey × BenchmarkResult)) (k : BenchmarkKey) :
    Option BenchmarkResult :=
  (es.find? (fun e => decide (e.1 = k))).map (fun e => e.2)

/-- Modelled from the spec: `get` checks local first, then remote; on a
remote hit it populates the local tier before returning.  Returns the
looked-up result together with the possibly updated cache. -/
def FingerprintCache.get (c : FingerprintCache) (k : BenchmarkKey) :
    Option BenchmarkResult × FingerprintCache :=
  match lookupEntry c.localEntries k with
  | some r => (some r, c)
  | none =>
      match lookupEntry c.remoteEntries k with
      | some r =>
          (some r,
            { localEntries := (k, r) :: c.localEntries
              remoteEntries := c.remoteEntries })
      | none => (none, c)

/-- Modelled from the spec: `put` writes to local synchronously and to
remote best-effort; `remoteOk` records whether the remote write succeeded
(a remote failure is logged and never fatal). -/
def FingerprintCache.put (c : FingerprintCache) (k : BenchmarkKey)
    (r : BenchmarkResult) (remoteOk : Bool) : FingerprintCache :=
  { localEntries := (k, r) :: c.localEntries
    remoteEntries := if remoteOk then (k, r) :: c.remoteEntries else c.remoteEntries }

/-- All entries of both cache tiers. -/
def cacheEntries (c : FingerprintCache) : List (BenchmarkKey × BenchmarkResult) :=
  c.localEntries ++ c.remoteEntries

/-- The pure lookup a `get` answers with (local first, then remote). -/
def cacheLookup (c : FingerprintCache) (k : BenchmarkKey) : Option BenchmarkResult :=
  (c.get k).1

/-! ## Orchestrator configuration and state -/

/-- Modelled from the spec: the immutable per-run configuration: the
registry listings, the system version string, and the resolved benchmark
keys. -/
structure Config where
  algorithms : List AlgorithmComponent
  datasets : List DatasetComponent
  system_version : String
  keys : List BenchmarkKey

/-- Registry lookup of an algorithm by name. -/
def findAlgorithm (cfg : Config) (n : String) : Option AlgorithmComponent :=
  cfg.algorithms.find? (fun a => decide (a.name = n))

/-- Registry lookup of a dataset by name. -/
def findDataset (cfg : Config) (n : String) : Option DatasetComponent :=
  cfg.datasets.find? (fun d => decide (d.name = n))

/-- Modelled from the spec: the result record built from a verified
execution: identity fields copied from the key, sizes measured from the
array and the encoded bytes, ratio and throughputs derived from them. -/
def mkResult (cfg : Config) (k : BenchmarkKey) (a : AlgorithmComponent)
    (d : DatasetComponent) (et dt ts : ℚ) : BenchmarkResult :=
  { dataset := k.dataset_name
    algorithm := k.algorithm_name
    algorithm_version := k.algorithm_version
    dataset_version := k.dataset_version
    system_version := cfg.system_version
    compression_ratio := (arrayByteSize d.generate : ℚ) / ((a.encode d.generate).length : ℚ)
    encode_time := et
    decode_time := dt
    encode_mb_per_sec := (arrayByteSize d.generate : ℚ) / et / 1000000
    decode_mb_per_sec := (arrayByteSize d.generate : ℚ) / dt / 1000000
    original_size := arrayByteSize d.generate
    compressed_size := (a.encode d.generate).length
    array_shape := d.shape
    array_dtype := d.dtype
    timestamp := ts }

/-- Modelled from the spec: the per-key state machine phases of the
orchestrator; `stored` and `failed` are terminal. -/
inductive KeyPhase where
  | pending
  | reserved
  | stored
  | failed
deriving DecidableEq

/-- Whether a phase is terminal (Stored or Failed). -/
def KeyPhase.isTerminal : KeyPhase → Bool
  | .stored => true
  | .failed => true
  | _ => false

/-- Modelled from the spec: the mutable orchestrator state: per-key phase,
the two-tier cache, the result store, the log of executions performed by
the engine, and the run-progress snapshot. -/
structure OrchState where
  phase : BenchmarkKey → KeyPhase
  cache : FingerprintCache
  store : List BenchmarkResult
  execLog : List BenchmarkKey
  progress : RunProgress

/-- Modelled from the spec: one worker step of the orchestrator state
machine.  A pending key with a cached result transitions directly to
stored; a pending uncached key is first marked reserved; a reserved key is
executed by the engine and, when sizes are valid and verification
succeeds, its result is cached and stored; otherwise the key fails.
Progress is updated after every terminal transition.  Interleavings of
these steps model concurrent workers. -/
inductive Step (cfg : Config) : OrchState → OrchState → Prop where
  | cacheHit (s : OrchState) (k : BenchmarkKey) (r : BenchmarkResult)
      (c' : FingerprintCache) (el : ℚ) (lu : String)
      (hk : k ∈ cfg.keys) (hp : s.phase k = KeyPhase.pending)
      (hget : s.cache.get k = (some r, c')) :
      Step cfg s
        { s with
          phase := Function.update s.phase k KeyPhase.stored
          cache := c'
          store := s.store ++ [r]
          progress := s.progress.advance k (some r.summary) el lu }
  | reserve (s : OrchState) (k : BenchmarkKey) (c' : FingerprintCache)
      (hk : k ∈ cfg.keys) (hp : s.phase k = KeyPhase.pending)
      (hget : s.cache.get k = (none, c')) :
      Step cfg s
        { s with
          phase := Function.update s.phase k KeyPhase.reserved
          cache := c' }
  | execSuccess (s : OrchState) (k : BenchmarkKey) (a : AlgorithmComponent)
      (d : DatasetComponent) (et dt ts el : ℚ) (lu : String) (remoteOk : Bool)
      (hk : k ∈ cfg.keys) (hp : s.phase k = KeyPhase.reserved)
      (ha : findAlgorithm cfg k.algorithm_name = some a)
      (hd : findDataset cfg k.dataset_name = some d)
      (hverify : verify d.generate (a.decode (a.encode d.generate))
        (effectiveTolerance a) = true)
      (hosize : 0 < arrayByteSize d.generate)
      (hcsize : 0 < (a.encode d.generate).length)
      (het : 0 < et) (hdt : 0 < dt) :
      Step cfg s
        { s with
          phase := Function.update s.phase k KeyPhase.stored
          cache := s.cache.put k (mkResult cfg k a d et dt ts) remoteOk
          store := s.store ++ [mkResult cfg k a d et dt ts]
          execLog := s.execLog ++ [k]
          progress := s.progress.advance k (some (mkResult cfg k a d et dt ts).summary) el lu }
  | execFailed (s : OrchState) (k : BenchmarkKey) (el : ℚ) (lu : String)
      (hk : k ∈ cfg.keys) (hp : s.phase k = KeyPhase.reserved) :
      Step cfg s
        { s with
          phase := Function.update s.phase k KeyPhase.failed
          execLog := s.execLog ++ [k]
          progress := s.progress.advance k none el lu }

/-- Reachability of orchestrator states by worker steps. -/
def Reach (cfg : Config) : OrchState → OrchState → Prop :=
  Relation.ReflTransGen (Step cfg)

/-- Modelled from the spec: the boundary between two orchestrator runs
over unchanged components: phases, store and progress are reset, while the
fingerprint cache and the cumulative engine execution log persist. -/
def resetRun (s : OrchState) : OrchState :=
  { phase := fun _ => KeyPhase.pending
    cache := s.cache
    store := []
    execLog := s.execLog
    progress := initProgress s.progress.total_count }

/-! ## Invariants -/

/-- A result went through a successful verification: some registered
algorithm and dataset carry its names and the decoded output of that
algorithm on that dataset array passes the Verifier. -/
def resultVerified (cfg : Config) (r : BenchmarkResult) : Prop :=
  ∃ a, a ∈ cfg.algorithms ∧ ∃ d, d ∈ cfg.datasets ∧
    a.name = r.algorithm ∧ d.name = r.dataset ∧
    verify d.generate (a.decode (a.encode d.generate)) (effectiveTolerance a) = true

/-- A stored result is well formed: verified, and its compression ratio is
the size quotient and positive. -/
def ResultOk (cfg : Config) (r : BenchmarkResult) : Prop :=
  resultVerified cfg r ∧
  r.compression_ratio = (r.original_size : ℚ) / (r.compressed_size : ℚ) ∧
  0 < r.compression_ratio

/-- A cache entry is well formed: its result is well formed and carries
exactly the version fields of its key. -/
def EntryOk (cfg : Config) (k : BenchmarkKey) (r : BenchmarkResult) : Prop :=
  ResultOk cfg r ∧
  r.algorithm_version = k.algorithm_version ∧
  r.dataset_version = k.dataset_version

/-- Data well-formedness of an orchestrator state: every cache entry and
every stored result is well formed. -/
def DataWF (cfg : Config) (s : OrchState) : Prop :=
  (∀ e ∈ cacheEntries s.cache, EntryOk cfg e.1 e.2) ∧
  (∀ r ∈ s.store, ResultOk cfg r)

/-- Number of resolved keys in a terminal phase. -/
def terminalCount (cfg : Config) (phase : BenchmarkKey → KeyPhase) : ℕ :=
  (cfg.keys.filter (fun k => (phase k).isTerminal)).length

/-- Progress well-formedness: the completed counter counts exactly the
terminal keys and the total counter is the number of resolved keys. -/
def ProgressWF (cfg : Config) (s : OrchState) : Prop :=
  s.progress.completed_count = terminalCount cfg s.phase ∧
  s.progress.total_count = cfg.keys.length

/-- Per-key invariant of one run started with the key uncached and
unexecuted: while the key is pending or reserved no execution has
happened and it is uncached; once stored it has been executed exactly
once and is cached; once failed it has been executed exactly once and is
not cached. -/
def KeyInv (k : BenchmarkKey) (s : OrchState) : Prop :=
  match s.phase k with
  | KeyPhase.pending => s.execLog.count k = 0 ∧ cacheLookup s.cache k = none
  | KeyPhase.reserved => s.execLog.count k = 0 ∧ cacheLookup s.cache k = none
  | KeyPhase.stored => s.execLog.count k = 1 ∧ cacheLookup s.cache k ≠ none
  | KeyPhase.failed => s.execLog.count k = 1 ∧ cacheLookup s.cache k = none

/-- Per-key invariant of a second run over an unchanged, already cached
key: it stays cached, the cumulative execution count stays one, and the
key can be neither reserved nor failed (any terminal processing is a
cache hit). -/
def KeyInvCached (k : BenchmarkKey) (s : OrchState) : Prop :=
  s.execLog.count k = 1 ∧ cacheLookup s.cache k ≠ none ∧
  s.phase k ≠ KeyPhase.reserved ∧ s.phase k ≠ KeyPhase.failed

/-- Per-key invariant bounding executions in a single run: at most one
execution, and none while the key is still pending or reserved. -/
def KeyExecBound (k : BenchmarkKey) (s : OrchState) : Prop :=
  s.execLog.count k ≤ 1 ∧
  ((s.phase k = KeyPhase.pending ∨ s.phase k = KeyPhase.reserved) →
    s.execLog.count k = 0)

/-! ## Web dashboard: field sets (from `web-ui/src/types.ts` and
`web-ui/src/pages/Monitor.tsx`) -/

/-- TypeScript-level field types occurring in the dashboard interfaces;
`summaryArray` stands for the inline array-of-records type of
`completed_benchmarks`, whose record fields are compared separately. -/
inductive TsType where
  | str
  | num
  | numArray
  | summaryArray
deriving DecidableEq

/-- The ordered fields of the `BenchmarkResult` interface in
`web-ui/src/types.ts`. -/
def benchmarkResultFieldsTs : List (String × TsType) :=
  [("dataset", TsType.str), ("algorithm", TsType.str),
   ("algorithm_version", TsType.str), ("dataset_version", TsType.str),
   ("system_version", TsType.str), ("compression_ratio", TsType.num),
   ("encode_time", TsType.num), ("decode_time", TsType.num),
   ("encode_mb_per_sec", TsType.num), ("decode_mb_per_sec", TsType.num),
   ("original_size", TsType.num), ("compressed_size", TsType.num),
   ("array_shape", TsType.numArray), ("array_dtype", TsType.str),
   ("timestamp", TsType.num)]

/-- The ordered fields of the `BenchmarkStatus` interface in
`web-ui/src/pages/Monitor.tsx`. -/
def benchmarkStatusFieldsTs : List (String × TsType) :=
  [("current_dataset", TsType.str), ("current_algorithm", TsType.str),
   ("completed_count", TsType.num), ("total_count", TsType.num),
   ("progress_percentage", TsType.num), ("elapsed_time", TsType.num),
   ("last_update", TsType.str), ("completed_benchmarks", TsType.summaryArray)]

/-- The ordered fields of the inline `completed_benchmarks` record type in
`web-ui/src/pages/Monitor.tsx`. -/
def completedBenchmarkFieldsTs : List (String × TsType) :=
  [("dataset", TsType.str), ("algorithm", TsType.str),
   ("compression_ratio", TsType.num), ("encode_time", TsType.num),
   ("decode_time", TsType.num)]

/-- Field types as the specification states them. -/
inductive SpecFieldType where
  | string
  | float
  | int
  | seqInt
  | number
  | iso8601
  | seqSummary
deriving DecidableEq

/-- Modelled from the spec: the result record of section 6, field names
and types in the spec order. -/
def specResultFields : List (String × SpecFieldType) :=
  [("dataset", SpecFieldType.string), ("algorithm", SpecFieldType.string),
   ("algorithm_version", SpecFieldType.string), ("dataset_version", SpecFieldType.string),
   ("system_version", SpecFieldType.string), ("compression_ratio", SpecFieldType.float),
   ("encode_time", SpecFieldType.float), ("decode_time", SpecFieldType.float),
   ("encode_mb_per_sec", SpecFieldType.float), ("decode_mb_per_sec", SpecFieldType.float),
   ("original_size", SpecFieldType.int), ("compressed_size", SpecFieldType.int),
   ("array_shape", SpecFieldType.seqInt), ("array_dtype", SpecFieldType.string),
   ("timestamp", SpecFieldType.number)]

/-- Modelled from the spec: the progress/status record of section 6. -/
def specStatusFields : List (String × SpecFieldType) :=
  [("current_dataset", SpecFieldType.string), ("current_algorithm", SpecFieldType.string),
   ("completed_count", SpecFieldType.int), ("total_count", SpecFieldType.int),
   ("progress_percentage", SpecFieldType.float), ("elapsed_time", SpecFieldType.float),
   ("last_update", SpecFieldType.iso8601), ("completed_benchmarks", SpecFieldType.seqSummary)]

/-- Modelled from the spec: the field names of one completed-benchmark
summary in the progress record of section 6. -/
def specSummaryFieldNames : List String :=
  ["dataset", "algorithm", "compression_ratio", "encode_time", "decode_time"]

/-- How a spec-level field type is realised at the TypeScript level:
floats and ints are both `number`, the ISO-8601 date is a string. -/
def specTypeToTs : SpecFieldType → TsType
  | SpecFieldType.string => TsType.str
  | SpecFieldType.float => TsType.num
  | SpecFieldType.int => TsType.num
  | SpecFieldType.seqInt => TsType.numArray
  | SpecFieldType.number => TsType.num
  | SpecFieldType.iso8601 => TsType.str
  | SpecFieldType.seqSummary => TsType.summaryArray

/-! ## Web dashboard: the Monitor page (from `web-ui/src/pages/Monitor.tsx`) -/

/-- The poll interval passed to `setInterval` in `Monitor.tsx`, in
milliseconds. -/
def monitorPollIntervalMs : ℕ := 30000

/-- The fetch schedule of the monitor: `fetchStatus` runs immediately and
then on every interval tick, so the n-th fetch happens n intervals after
mount. -/
def monitorFetchTimeMs (n : ℕ) : ℕ := n * monitorPollIntervalMs

/-- Truncation toward zero, as the JavaScript `%` operator uses. -/
def jsTrunc (q : ℚ) : ℤ :=
  if 0 ≤ q then ⌊q⌋ else ⌈q⌉

/-- The JavaScript remainder operator on numbers. -/
def jsMod (a b : ℚ) : ℚ :=
  a - b * (jsTrunc (a / b) : ℚ)

/-- The `formatTime` helper of `Monitor.tsx`: hours, minutes and seconds
by `Math.floor` and `%`, rendered as a template string. -/
def formatTime (seconds : ℚ) : String :=
  let hours : ℤ := ⌊seconds / 3600⌋
  let minutes : ℤ := ⌊(jsMod seconds 3600) / 60⌋
  let remainingSeconds : ℤ := ⌊jsMod seconds 60⌋
  toString hours ++ "h " ++ toString minutes ++ "m " ++ toString remainingSeconds ++ "s"

/-! ## Web dashboard: the Algorithm page (from `web-ui/src/pages/Algorithm.tsx`) -/

/-- The web-ui `Algorithm` interface; the repository slice omits its
declaration in `types.ts`, so the fields are the ones `Algorithm.tsx`
uses: name, description, version, tags, and optional source link. -/
structure AlgorithmMeta where
  name : String
  description : String
  version : String
  tags : List String
  source_file : Option String
deriving DecidableEq

/-- The benchmark data document fetched by the dashboard, as in
`web-ui/src/types.ts`. -/
structure BenchmarkData where
  results : List BenchmarkResult
deriving DecidableEq

/-- What the Algorithm page renders: the not-found message, or the page of
a matched algorithm whose results table (present only when benchmark data
is loaded) is carried along. -/
inductive AlgorithmPageView where
  | notFound
  | found (alg : AlgorithmMeta) (table : Option (List BenchmarkResult))
deriving DecidableEq

/-- The Algorithm page logic of `Algorithm.tsx`: find the algorithm whose
name equals the URL parameter; if none matches render "Algorithm not
found", else render the page with the results filtered to that
algorithm's name (no table when no benchmark data is loaded). -/
def algorithmPage (algorithms : List AlgorithmMeta)
    (benchmarkData : Option BenchmarkData) (algorithmName : String) :
    AlgorithmPageView :=
  match algorithms.find? (fun a => decide (a.name = algorithmName)) with
  | none => AlgorithmPageView.notFound
  | some alg =>
      AlgorithmPageView.found alg
        (benchmarkData.map (fun d =>
          d.results.filter (fun r => decide (r.algorithm = alg.name))))

/-! ## Concrete components for witnesses -/

/-- A concrete two-element array used by the witnesses. -/
def witArray : NDArray :=
  { shape := [2], dtype := "uint8", data := [3, 5] }

/-- A concrete dataset component used by the witnesses. -/
def witDataset : DatasetComponent :=
  { name := "ds1", version := "2", shape := [2], dtype := "uint8",
    generate := witArray }

/-- A concrete lossless algorithm used by the witnesses: it encodes the
two data elements as bytes and decodes back to the known array. -/
def witAlgorithm : AlgorithmComponent :=
  { name := "copy", version := "1.0", tags := [],
    compatible := fun _ => true,
    encode := fun a => a.data.map (fun q => q.num.toNat),
    decode := fun _ => { shape := [2], dtype := "uint8", data := [3, 5] },
    tolerance := none }

/-- The benchmark key of the witness pair. -/
def witKey : BenchmarkKey :=
  { dataset_name := "ds1", algorithm_name := "copy",
    dataset_version := "2", algorithm_version := "1.0" }

/-- The witness configuration: one algorithm, one dataset, one key. -/
def witConfig : Config :=
  { algorithms := [witAlgorithm], datasets := [witDataset],
    system_version := "sys-1", keys := [witKey] }

/-- The witness result: what the engine stores for the witness pair. -/
def witResult : BenchmarkResult :=
  mkResult witConfig witKey witAlgorithm witDataset 1 1 7

/-- The initial witness state: everything pending, empty cache, empty
store and log, fresh progress for one key. -/
def witState0 : OrchState :=
  { phase := fun _ => KeyPhase.pending
    cache := { localEntries := [], remoteEntries := [] }
    store := []
    execLog := []
    progress := initProgress 1 }

/-- The witness state after the reserve step on the witness key. -/
def witState1 : OrchState :=
  { witState0 with
    phase := Function.update witState0.phase witKey KeyPhase.reserved
    cache := { localEntries := [], remoteEntries := [] } }

/-- The witness state after the engine executed, verified and stored the
witness pair. -/
def witState2 : OrchState :=
  { witState1 with
    phase := Function.update witState1.phase witKey KeyPhase.stored
    cache := witState1.cache.put witKey witResult true
    store := witState1.store ++ [witResult]
    execLog := witState1.execLog ++ [witKey]
    progress := witState1.progress.advance witKey (some witResult.summary) 2 "t2" }

/-- An initial state whose cache and store already hold the witness
result, as left by a previous verified run. -/
def witStateCached : OrchState :=
  { phase := fun _ => KeyPhase.pending
    cache := { localEntries := [(witKey, witResult)], remoteEntries := [] }
    store := [witResult]
    execLog := []
    progress := initProgress 1 }

/-- The algorithm metadata shown on the witness Algorithm page. -/
def witAlgMeta : AlgorithmMeta :=
  { name := "copy", description := "identity codec", version := "1.0",
    tags := [], source_file := none }

/-- A second result, for a different algorithm, in the witness benchmark
data. -/
def witResultOther : BenchmarkResult :=
  { witResult with algorithm := "other" }

/-- The witness benchmark data document. -/
def witData : BenchmarkData :=
  { results := [witResult, witResultOther] }

/-! ## Cache lemmas -/

theorem lookupEntry_cons (k0 : BenchmarkKey) (r : BenchmarkResult)
    (es : List (BenchmarkKey × BenchmarkResult)) (k : BenchmarkKey) :
    lookupEntry ((k0, r) :: es) k = if k0 = k then some r else lookupEntry es k := by
  unfold lookupEntry
  rcases eq_or_ne k0 k with h | h
  · subst h
    rw [List.find?_cons_of_pos _ (by simp), if_pos rfl]
    rfl
  · rw [List.find?_cons_of_neg _ (by simp [h]), if_neg h]

theorem lookupEntry_mem {es : List (BenchmarkKey × BenchmarkResult)}
    {k : BenchmarkKey} {r : BenchmarkResult}
    (h : lookupEntry es k = some r) : (k, r) ∈ es := by
  unfold lookupEntry at h
  cases hf : es.find? (fun e => decide (e.1 = k)) with
  | none => rw [hf] at h; simp at h
  | some e =>
      rw [hf] at h
      simp only [Option.map_some', Option.some.injEq] at h
      have hm := List.mem_of_find?_eq_some hf
      have hp := List.find?_some hf
      simp only [decide_eq_true_eq] at hp
      have he : e = (k, r) := by
        cases e with
        | mk e1 e2 => simp_all
      rwa [he] at hm

theorem cacheLookup_eq_get_fst {c : FingerprintCache} {k : BenchmarkKey}
    {o : Option BenchmarkResult} {c' : FingerprintCache}
    (h : c.get k = (o, c')) : cacheLookup c k = o := by
  rw [cacheLookup, h]

theorem get_entries_subset {c : FingerprintCache} {k : BenchmarkKey}
    {o : Option BenchmarkResult} {c' : FingerprintCache}
    (h : c.get k = (o, c')) :
    ∀ e ∈ cacheEntries c', e ∈ cacheEntries c := by
  unfold FingerprintCache.get at h
  cases hl : lookupEntry c.localEntries k with
  | some r =>
      rw [hl] at h
      injection h with h1 h2
      subst h2
      intro e he
      exact he
  | none =>
      rw [hl] at h
      cases hr : lookupEntry c.remoteEntries k with
      | some r =>
          rw [hr] at h
          injection h with h1 h2
          subst h2
          intro e he
          simp only [cacheEntries, List.mem_append, List.mem_cons] at he ⊢
          rcases he with (he | he) | he
          · subst he
            exact Or.inr (lookupEntry_mem hr)
          · exact Or.inl he
          · exact Or.inr he
      | none =>
          rw [hr] at h
          injection h with h1 h2
          subst h2
          intro e he
          exact he

theorem get_some_mem {c : FingerprintCache} {k : BenchmarkKey}
    {r : BenchmarkResult} {c' : FingerprintCache}
    (h : c.get k = (some r, c')) : (k, r) ∈ cacheEntries c := by
  unfold FingerprintCache.get at h
  cases hl : lookupEntry c.localEntries k with
  | some r0 =>
      rw [hl] at h
      injection h with h1 h2
      injection h1 with h1
      subst h1
      exact List.mem_append_left _ (lookupEntry_mem hl)
  | none =>
      rw [hl] at h
      cases hr : lookupEntry c.remoteEntries k with
      | some r0 =>
          rw [hr] at h
          injection h with h1 h2
          injection h1 with h1
          subst h1
          exact List.mem_append_right _ (lookupEntry_mem hr)
      | none =>
          rw [hr] at h
          injection h with h1 h2
          simp at h1

theorem put_entries {c : FingerprintCache} {k : BenchmarkKey}
    {r : BenchmarkResult} {ok : Bool} :
    ∀ e ∈ cacheEntries (c.put k r ok), e = (k, r) ∨ e ∈ cacheEntries c := by
  intro e he
  unfold cacheEntries FingerprintCache.put at he
  unfold cacheEntries
  cases ok <;> (simp_all; try tauto)

theorem cacheLookup_after_get {c : FingerprintCache} {k0 : BenchmarkKey}
    {o : Option BenchmarkResult} {c' : FingerprintCache}
    (h : c.get k0 = (o, c')) (k : BenchmarkKey) :
    cacheLookup c' k = cacheLookup c k := by
  unfold FingerprintCache.get at h
  cases hl : lookupEntry c.localEntries k0 with
  | some r =>
      rw [hl] at h
      injection h with h1 h2
      rw [h2]
  | none =>
      rw [hl] at h
      cases hr : lookupEntry c.remoteEntries k0 with
      | some r =>
          rw [hr] at h
          injection h with h1 h2
          subst h2
          rcases eq_or_ne k0 k with hk | hk
          · subst hk
            have hL : cacheLookup
                { localEntries := (k0, r) :: c.localEntries,
                  remoteEntries := c.remoteEntries } k0 = some r := by
              unfold cacheLookup FingerprintCache.get
              rw [lookupEntry_cons, if_pos rfl]
            have hR : cacheLookup c k0 = some r := by
              unfold cacheLookup FingerprintCache.get
              rw [hl, hr]
            rw [hL, hR]
          · unfold cacheLookup FingerprintCache.get
            rw [show lookupEntry ((k0, r) :: c.localEntries) k =
                lookupEntry c.localEntries k from by
              rw [lookupEntry_cons, if_neg hk]]
            cases hl2 : lookupEntry c.localEntries k with
            | some r1 => simp [hl2]
            | none =>
                cases hr2 : lookupEntry c.remoteEntries k <;> simp [hl2, hr2]
      | none =>
          rw [hr] at h
          injection h with h1 h2
          rw [h2]

theorem cacheLookup_put_self {c : FingerprintCache} (k : BenchmarkKey)
    (r : BenchmarkResult) (ok : Bool) :
    cacheLookup (c.put k r ok) k = some r := by
  unfold cacheLookup FingerprintCache.get FingerprintCache.put
  simp [lookupEntry_cons]

theorem cacheLookup_put_ne {c : FingerprintCache} {k0 k : BenchmarkKey}
    (hne : k0 ≠ k) (r : BenchmarkResult) (ok : Bool) :
    cacheLookup (c.put k0 r ok) k = cacheLookup c k := by
  unfold cacheLookup FingerprintCache.get FingerprintCache.put
  cases ok <;>
    simp only [Bool.false_eq_true, if_true, if_false, lookupEntry_cons, if_neg hne] <;>
    cases hl2 : lookupEntry c.localEntries k <;>
      cases hr2 : lookupEntry c.remoteEntries k <;>
        simp [hl2, hr2, lookupEntry_cons, if_neg hne]

/-! ## Counting lemmas -/

theorem count_append_singleton (l : List BenchmarkKey) (k0 k : BenchmarkKey) :
    (l ++ [k0]).count k = l.count k + (if k0 = k then 1 else 0) := by
  rcases eq_or_ne k0 k with h | h
  · subst h
    simp [List.count_append]
  · simp [List.count_append, List.count_singleton', h]

theorem length_filter_update_true {l : List BenchmarkKey} (hnd : l.Nodup)
    {k : BenchmarkKey} (hk : k ∈ l) {p q : BenchmarkKey → Bool}
    (hp : p k = false) (hq : ∀ x, q x = if x = k then true else p x) :
    (l.filter q).length = (l.filter p).length + 1 := by
  induction l with
  | nil => cases hk
  | cons a l ih =>
      have hnd' := List.nodup_cons.mp hnd
      rcases List.mem_cons.mp hk with h | h
      · subst h
        have hqa : q k = true := by rw [hq]; simp
        have hfilter : l.filter q = l.filter p := by
          apply List.filter_congr
          intro x hx
          rw [hq]
          have hxk : x ≠ k := fun he => hnd'.1 (he ▸ hx)
          simp [hxk]
        simp [List.filter_cons, hqa, hp, hfilter]
      · have hak : a ≠ k := fun he => hnd'.1 (he ▸ h)
        have hqa : q a = p a := by rw [hq]; simp [hak]
        cases hpa : p a <;>
          simp [List.filter_cons, hqa, hpa, ih hnd'.2 h]

/-! ## Registry lookup lemmas -/

theorem findAlgorithm_mem {cfg : Config} {n : String} {a : AlgorithmComponent}
    (h : findAlgorithm cfg n = some a) : a ∈ cfg.algorithms ∧ a.name = n := by
  refine ⟨List.mem_of_find?_eq_some h, ?_⟩
  have := List.find?_some h
  simpa using this

theorem findDataset_mem {cfg : Config} {n : String} {d : DatasetComponent}
    (h : findDataset cfg n = some d) : d ∈ cfg.datasets ∧ d.name = n := by
  refine ⟨List.mem_of_find?_eq_some h, ?_⟩
  have := List.find?_some h
  simpa using this

/-! ## Executed results are well formed -/

theorem mkResult_ResultOk {cfg : Config} {k : BenchmarkKey}
    {a : AlgorithmComponent} {d : DatasetComponent} {et dt ts : ℚ}
    (ha : findAlgorithm cfg k.algorithm_name = some a)
    (hd : findDataset cfg k.dataset_name = some d)
    (hverify : verify d.generate (a.decode (a.encode d.generate))
      (effectiveTolerance a) = true)
    (hosize : 0 < arrayByteSize d.generate)
    (hcsize : 0 < (a.encode d.generate).length) :
    ResultOk cfg (mkResult cfg k a d et dt ts) := by
  obtain ⟨hma, hna⟩ := findAlgorithm_mem ha
  obtain ⟨hmd, hnd⟩ := findDataset_mem hd
  refine ⟨⟨a, hma, d, hmd, ?_, ?_, hverify⟩, rfl, ?_⟩
  · simpa [mkResult] using hna
  · simpa [mkResult] using hnd
  · show (0 : ℚ) < (arrayByteSize d.generate : ℚ) / ((a.encode d.generate).length : ℚ)
    exact div_pos (by exact_mod_cast hosize) (by exact_mod_cast hcsize)

theorem mkResult_EntryOk {cfg : Config} {k : BenchmarkKey}
    {a : AlgorithmComponent} {d : DatasetComponent} {et dt ts : ℚ}
    (ha : findAlgorithm cfg k.algorithm_name = some a)
    (hd : findDataset cfg k.dataset_name = some d)
    (hverify : verify d.generate (a.decode (a.encode d.generate))
      (effectiveTolerance a) = true)
    (hosize : 0 < arrayByteSize d.generate)
    (hcsize : 0 < (a.encode d.generate).length) :
    EntryOk cfg k (mkResult cfg k a d et dt ts) :=
  ⟨mkResult_ResultOk ha hd hverify hosize hcsize, rfl, rfl⟩

/-! ## Preservation of data well-formedness -/

theorem DataWF_step {cfg : Config} {s s' : OrchState}
    (hwf : DataWF cfg s) (hst : Step cfg s s') : DataWF cfg s' := by
  obtain ⟨hc, hs⟩ := hwf
  cases hst with
  | cacheHit k r c' el lu hk hp hget =>
      refine ⟨?_, ?_⟩
      · intro e he
        exact hc e (get_entries_subset hget e he)
      · intro x hx
        simp only [List.mem_append, List.mem_singleton] at hx
        rcases hx with hx | hx
        · exact hs x hx
        · subst hx
          exact (hc (k, x) (get_some_mem hget)).1
  | reserve k c' hk hp hget =>
      refine ⟨?_, hs⟩
      intro e he
      exact hc e (get_entries_subset hget e he)
  | execSuccess k a d et dt ts el lu remoteOk hk hp ha hd hverify hosize hcsize het hdt =>
      refine ⟨?_, ?_⟩
      · intro e he
        rcases put_entries e he with he | he
        · subst he
          exact mkResult_EntryOk ha hd hverify hosize hcsize
        · exact hc e he
      · intro x hx
        simp only [List.mem_append, List.mem_singleton] at hx
        rcases hx with hx | hx
        · exact hs x hx
        · subst hx
          exact mkResult_ResultOk ha hd hverify hosize hcsize
  | execFailed k el lu hk hp =>
      exact ⟨hc, hs⟩

theorem DataWF_reach {cfg : Config} {s0 s : OrchState}
    (hwf : DataWF cfg s0) (h : Reach cfg s0 s) : DataWF cfg s := by
  induction h with
  | refl => exact hwf
  | tail _ hstep ih => exact DataWF_step ih hstep

/-! ## Preservation of progress well-formedness -/

theorem terminalCount_update_nonterminal {cfg : Config}
    {phase : BenchmarkKey → KeyPhase} {k : BenchmarkKey} {ph : KeyPhase}
    (hold : (phase k).isTerminal = false) (hnew : ph.isTerminal = false) :
    terminalCount cfg (Function.update phase k ph) = terminalCount cfg phase := by
  unfold terminalCount
  congr 1
  apply List.filter_congr
  intro x hx
  rw [Function.update_apply]
  rcases eq_or_ne x k with h | h
  · subst h
    rw [if_pos rfl, hnew, hold]
  · rw [if_neg h]

theorem terminalCount_update_terminal {cfg : Config}
    {phase : BenchmarkKey → KeyPhase} {k : BenchmarkKey} {ph : KeyPhase}
    (hnd : cfg.keys.Nodup) (hk : k ∈ cfg.keys)
    (hold : (phase k).isTerminal = false) (hnew : ph.isTerminal = true) :
    terminalCount cfg (Function.update phase k ph) = terminalCount cfg phase + 1 := by
  unfold terminalCount
  apply length_filter_update_true hnd hk hold
  intro x
  rw [Function.update_apply]
  rcases eq_or_ne x k with h | h
  · subst h
    rw [if_pos rfl, if_pos rfl, hnew]
  · rw [if_neg h, if_neg h]

theorem ProgressWF_step {cfg : Config} {s s' : OrchState} (hnd : cfg.keys.Nodup)
    (hwf : ProgressWF cfg s) (hst : Step cfg s s') : ProgressWF cfg s' := by
  obtain ⟨hcc, htc⟩ := hwf
  cases hst with
  | cacheHit k r c' el lu hk hp hget =>
      refine ⟨?_, htc⟩
      show s.progress.completed_count + 1 =
        terminalCount cfg (Function.update s.phase k KeyPhase.stored)
      rw [@terminalCount_update_terminal cfg s.phase k KeyPhase.stored hnd hk
        (by rw [hp]; rfl) rfl, hcc]
  | reserve k c' hk hp hget =>
      refine ⟨?_, htc⟩
      show s.progress.completed_count =
        terminalCount cfg (Function.update s.phase k KeyPhase.reserved)
      rw [@terminalCount_update_nonterminal cfg s.phase k KeyPhase.reserved
        (by rw [hp]; rfl) rfl, hcc]
  | execSuccess k a d et dt ts el lu remoteOk hk hp ha hd hverify hosize hcsize het hdt =>
      refine ⟨?_, htc⟩
      show s.progress.completed_count + 1 =
        terminalCount cfg (Function.update s.phase k KeyPhase.stored)
      rw [@terminalCount_update_terminal cfg s.phase k KeyPhase.stored hnd hk
        (by rw [hp]; rfl) rfl, hcc]
  | execFailed k el lu hk hp =>
      refine ⟨?_, htc⟩
      show s.progress.completed_count + 1 =
        terminalCount cfg (Function.update s.phase k KeyPhase.failed)
      rw [@terminalCount_update_terminal cfg s.phase k KeyPhase.failed hnd hk
        (by rw [hp]; rfl) rfl, hcc]

theorem ProgressWF_reach {cfg : Config} {s0 s : OrchState} (hnd : cfg.keys.Nodup)
    (hwf : ProgressWF cfg s0) (h : Reach cfg s0 s) : ProgressWF cfg s := by
  induction h with
  | refl => exact hwf
  | tail _ hstep ih => exact ProgressWF_step hnd ih hstep

theorem completed_mono_step {cfg : Config} {s s' : OrchState}
    (hst : Step cfg s s') :
    s.progress.completed_count ≤ s'.progress.completed_count := by
  cases hst with
  | cacheHit k r c' el lu hk hp hget => exact Nat.le_succ _
  | reserve k c' hk hp hget => exact le_rfl
  | execSuccess k a d et dt ts el lu remoteOk hk hp ha hd hverify hosize hcsize het hdt =>
      exact Nat.le_succ _
  | execFailed k el lu hk hp => exact Nat.le_succ _

theorem completed_mono_reach {cfg : Config} {s s' : OrchState}
    (h : Reach cfg s s') :
    s.progress.completed_count ≤ s'.progress.completed_count := by
  induction h with
  | refl => exact le_rfl
  | tail _ hstep ih => exact le_trans ih (completed_mono_step hstep)

/-! ## Preservation of the per-key invariants -/

theorem KeyInv_congr {k : BenchmarkKey} {s s' : OrchState}
    (hph : s'.phase k = s.phase k)
    (hlog : s'.execLog.count k = s.execLog.count k)
    (hlook : cacheLookup s'.cache k = cacheLookup s.cache k)
    (hinv : KeyInv k s) : KeyInv k s' := by
  unfold KeyInv at hinv ⊢
  rw [hph, hlog, hlook]
  exact hinv

theorem KeyInv_elim_pending {k : BenchmarkKey} {s : OrchState}
    (hph : s.phase k = KeyPhase.pending) (hinv : KeyInv k s) :
    s.execLog.count k = 0 ∧ cacheLookup s.cache k = none := by
  unfold KeyInv at hinv
  rw [hph] at hinv
  exact hinv

theorem KeyInv_elim_reserved {k : BenchmarkKey} {s : OrchState}
    (hph : s.phase k = KeyPhase.reserved) (hinv : KeyInv k s) :
    s.execLog.count k = 0 ∧ cacheLookup s.cache k = none := by
  unfold KeyInv at hinv
  rw [hph] at hinv
  exact hinv

theorem KeyInv_elim_stored {k : BenchmarkKey} {s : OrchState}
    (hph : s.phase k = KeyPhase.stored) (hinv : KeyInv k s) :
    s.execLog.count k = 1 ∧ cacheLookup s.cache k ≠ none := by
  unfold KeyInv at hinv
  rw [hph] at hinv
  exact hinv

theorem KeyInv_intro_reserved {k : BenchmarkKey} {s : OrchState}
    (hph : s.phase k = KeyPhase.reserved)
    (h1 : s.execLog.count k = 0) (h2 : cacheLookup s.cache k = none) : KeyInv k s := by
  unfold KeyInv
  rw [hph]
  exact ⟨h1, h2⟩

theorem KeyInv_intro_stored {k : BenchmarkKey} {s : OrchState}
    (hph : s.phase k = KeyPhase.stored)
    (h1 : s.execLog.count k = 1) (h2 : cacheLookup s.cache k ≠ none) : KeyInv k s := by
  unfold KeyInv
  rw [hph]
  exact ⟨h1, h2⟩

theorem KeyInv_intro_failed {k : BenchmarkKey} {s : OrchState}
    (hph : s.phase k = KeyPhase.failed)
    (h1 : s.execLog.count k = 1) (h2 : cacheLookup s.cache k = none) : KeyInv k s := by
  unfold KeyInv
  rw [hph]
  exact ⟨h1, h2⟩

theorem KeyInv_step {cfg : Config} {k : BenchmarkKey} {s s' : OrchState}
    (hinv : KeyInv k s) (hst : Step cfg s s') : KeyInv k s' := by
  cases hst with
  | cacheHit k0 r c' el lu hk hp hget =>
      rcases eq_or_ne k0 k with hkk | hkk
      · subst hkk
        have h2 := (KeyInv_elim_pending hp hinv).2
        have h1 : cacheLookup s.cache k0 = some r := cacheLookup_eq_get_fst hget
        rw [h2] at h1
        simp at h1
      · exact KeyInv_congr (Function.update_noteq (Ne.symm hkk) _ _) rfl
          (cacheLookup_after_get hget k) hinv
  | reserve k0 c' hk hp hget =>
      rcases eq_or_ne k0 k with hkk | hkk
      · subst hkk
        obtain ⟨h1, h2⟩ := KeyInv_elim_pending hp hinv
        refine KeyInv_intro_reserved (Function.update_same _ _ _) h1 ?_
        show cacheLookup c' k0 = none
        rw [cacheLookup_after_get hget]
        exact h2
      · exact KeyInv_congr (Function.update_noteq (Ne.symm hkk) _ _) rfl
          (cacheLookup_after_get hget k) hinv
  | execSuccess k0 a d et dt ts el lu remoteOk hk hp ha hd hverify hosize hcsize het hdt =>
      rcases eq_or_ne k0 k with hkk | hkk
      · subst hkk
        obtain ⟨h1, h2⟩ := KeyInv_elim_reserved hp hinv
        refine KeyInv_intro_stored (Function.update_same _ _ _) ?_ ?_
        · show (s.execLog ++ [k0]).count k0 = 1
          rw [count_append_singleton, if_pos rfl, h1]
        · show cacheLookup (s.cache.put k0 (mkResult cfg k0 a d et dt ts) remoteOk) k0 ≠ none
          rw [cacheLookup_put_self]
          simp
      · refine KeyInv_congr (Function.update_noteq (Ne.symm hkk) _ _) ?_
          (cacheLookup_put_ne hkk _ _) hinv
        show (s.execLog ++ [k0]).count k = s.execLog.count k
        rw [count_append_singleton, if_neg hkk, Nat.add_zero]
  | execFailed k0 el lu hk hp =>
      rcases eq_or_ne k0 k with hkk | hkk
      · subst hkk
        obtain ⟨h1, h2⟩ := KeyInv_elim_reserved hp hinv
        refine KeyInv_intro_failed (Function.update_same _ _ _) ?_ h2
        show (s.execLog ++ [k0]).count k0 = 1
        rw [count_append_singleton, if_pos rfl, h1]
      · refine KeyInv_congr (Function.update_noteq (Ne.symm hkk) _ _) ?_ rfl hinv
        show (s.execLog ++ [k0]).count k = s.execLog.count k
        rw [count_append_singleton, if_neg hkk, Nat.add_zero]

theorem KeyInv_reach {cfg : Config} {k : BenchmarkKey} {s0 s : OrchState}
    (hinv : KeyInv k s0) (h : Reach cfg s0 s) : KeyInv k s := by
  induction h with
  | refl => exact hinv
  | tail _ hstep ih => exact KeyInv_step ih hstep

theorem phase_update_self_not_unterminated {phase : BenchmarkKey → KeyPhase}
    {k : BenchmarkKey} {ph : KeyPhase} (hph : ph.isTerminal = true) :
    ¬ (Function.update phase k ph k = KeyPhase.pending ∨
       Function.update phase k ph k = KeyPhase.reserved) := by
  rw [Function.update_same]
  rintro (h | h) <;> subst h <;> exact absurd hph (by decide)

theorem KeyInvCached_step {cfg : Config} {k : BenchmarkKey} {s s' : OrchState}
    (hinv : KeyInvCached k s) (hst : Step cfg s s') : KeyInvCached k s' := by
  obtain ⟨h1, h2, h3, h4⟩ := hinv
  cases hst with
  | cacheHit k0 r c' el lu hk hp hget =>
      rcases eq_or_ne k0 k with hkk | hkk
      · subst hkk
        refine ⟨h1, ?_, ?_, ?_⟩
        · show cacheLookup c' k0 ≠ none
          rw [cacheLookup_after_get hget]
          exact h2
        · show Function.update s.phase k0 KeyPhase.stored k0 ≠ KeyPhase.reserved
          rw [Function.update_same]
          simp
        · show Function.update s.phase k0 KeyPhase.stored k0 ≠ KeyPhase.failed
          rw [Function.update_same]
          simp
      · refine ⟨h1, ?_, ?_, ?_⟩
        · show cacheLookup c' k ≠ none
          rw [cacheLookup_after_get hget]
          exact h2
        · show Function.update s.phase k0 KeyPhase.stored k ≠ KeyPhase.reserved
          rw [Function.update_noteq (Ne.symm hkk)]
          exact h3
        · show Function.update s.phase k0 KeyPhase.stored k ≠ KeyPhase.failed
          rw [Function.update_noteq (Ne.symm hkk)]
          exact h4
  | reserve k0 c' hk hp hget =>
      rcases eq_or_ne k0 k with hkk | hkk
      · subst hkk
        exact absurd (cacheLookup_eq_get_fst hget) h2
      · refine ⟨h1, ?_, ?_, ?_⟩
        · show cacheLookup c' k ≠ none
          rw [cacheLookup_after_get hget]
          exact h2
        · show Function.update s.phase k0 KeyPhase.reserved k ≠ KeyPhase.reserved
          rw [Function.update_noteq (Ne.symm hkk)]
          exact h3
        · show Function.update s.phase k0 KeyPhase.reserved k ≠ KeyPhase.failed
          rw [Function.update_noteq (Ne.symm hkk)]
          exact h4
  | execSuccess k0 a d et dt ts el lu remoteOk hk hp ha hd hverify hosize hcsize het hdt =>
      rcases eq_or_ne k0 k with hkk | hkk
      · subst hkk
        exact absurd hp h3
      · refine ⟨?_, ?_, ?_, ?_⟩
        · show (s.execLog ++ [k0]).count k = 1
          rw [count_append_singleton, if_neg hkk, Nat.add_zero]
          exact h1
        · show cacheLookup (s.cache.put k0 (mkResult cfg k0 a d et dt ts) remoteOk) k ≠ none
          rw [cacheLookup_put_ne hkk]
          exact h2
        · show Function.update s.phase k0 KeyPhase.stored k ≠ KeyPhase.reserved
          rw [Function.update_noteq (Ne.symm hkk)]
          exact h3
        · show Function.update s.phase k0 KeyPhase.stored k ≠ KeyPhase.failed
          rw [Function.update_noteq (Ne.symm hkk)]
          exact h4
  | execFailed k0 el lu hk hp =>
      rcases eq_or_ne k0 k with hkk | hkk
      · subst hkk
        exact absurd hp h3
      · refine ⟨?_, h2, ?_, ?_⟩
        · show (s.execLog ++ [k0]).count k = 1
          rw [count_append_singleton, if_neg hkk, Nat.add_zero]
          exact h1
        · show Function.update s.phase k0 KeyPhase.failed k ≠ KeyPhase.reserved
          rw [Function.update_noteq (Ne.symm hkk)]
          exact h3
        · show Function.update s.phase k0 KeyPhase.failed k ≠ KeyPhase.failed
          rw [Function.update_noteq (Ne.symm hkk)]
          exact h4

theorem KeyInvCached_reach {cfg : Config} {k : BenchmarkKey} {s0 s : OrchState}
    (hinv : KeyInvCached k s0) (h : Reach cfg s0 s) : KeyInvCached k s := by
  induction h with
  | refl => exact hinv
  | tail _ hstep ih => exact KeyInvCached_step ih hstep

theorem KeyExecBound_step {cfg : Config} {k : BenchmarkKey} {s s' : OrchState}
    (hb : KeyExecBound k s) (hst : Step cfg s s') : KeyExecBound k s' := by
  obtain ⟨h1, h2⟩ := hb
  cases hst with
  | cacheHit k0 r c' el lu hk hp hget =>
      rcases eq_or_ne k0 k with hkk | hkk
      · subst hkk
        exact ⟨h1, fun hph => absurd hph (phase_update_self_not_unterminated rfl)⟩
      · refine ⟨h1, ?_⟩
        intro hph
        apply h2
        rcases hph with hph | hph
        · exact Or.inl ((Function.update_noteq (Ne.symm hkk) _ _).symm.trans hph)
        · exact Or.inr ((Function.update_noteq (Ne.symm hkk) _ _).symm.trans hph)
  | reserve k0 c' hk hp hget =>
      rcases eq_or_ne k0 k with hkk | hkk
      · subst hkk
        exact ⟨h1, fun _ => h2 (Or.inl hp)⟩
      · refine ⟨h1, ?_⟩
        intro hph
        apply h2
        rcases hph with hph | hph
        · exact Or.inl ((Function.update_noteq (Ne.symm hkk) _ _).symm.trans hph)
        · exact Or.inr ((Function.update_noteq (Ne.symm hkk) _ _).symm.trans hph)
  | execSuccess k0 a d et dt ts el lu remoteOk hk hp ha hd hverify hosize hcsize het hdt =>
      rcases eq_or_ne k0 k with hkk | hkk
      · subst hkk
        refine ⟨?_, fun hph => absurd hph (phase_update_self_not_unterminated rfl)⟩
        show (s.execLog ++ [k0]).count k0 ≤ 1
        rw [count_append_singleton, if_pos rfl, h2 (Or.inr hp)]
      · refine ⟨?_, ?_⟩
        · show (s.execLog ++ [k0]).count k ≤ 1
          rw [count_append_singleton, if_neg hkk, Nat.add_zero]
          exact h1
        · intro hph
          show (s.execLog ++ [k0]).count k = 0
          rw [count_append_singleton, if_neg hkk, Nat.add_zero]
          apply h2
          rcases hph with hph | hph
          · exact Or.inl ((Function.update_noteq (Ne.symm hkk) _ _).symm.trans hph)
          · exact Or.inr ((Function.update_noteq (Ne.symm hkk) _ _).symm.trans hph)
  | execFailed k0 el lu hk hp =>
      rcases eq_or_ne k0 k with hkk | hkk
      · subst hkk
        refine ⟨?_, fun hph => absurd hph (phase_update_self_not_unterminated rfl)⟩
        show (s.execLog ++ [k0]).count k0 ≤ 1
        rw [count_append_singleton, if_pos rfl, h2 (Or.inr hp)]
      · refine ⟨?_, ?_⟩
        · show (s.execLog ++ [k0]).count k ≤ 1
          rw [count_append_singleton, if_neg hkk, Nat.add_zero]
          exact h1
        · intro hph
          show (s.execLog ++ [k0]).count k = 0
          rw [count_append_singleton, if_neg hkk, Nat.add_zero]
          apply h2
          rcases hph with hph | hph
          · exact Or.inl ((Function.update_noteq (Ne.symm hkk) _ _).symm.trans hph)
          · exact Or.inr ((Function.update_noteq (Ne.symm hkk) _ _).symm.trans hph)

theorem KeyExecBound_reach {cfg : Config} {k : BenchmarkKey} {s0 s : OrchState}
    (hb : KeyExecBound k s0) (h : Reach cfg s0 s) : KeyExecBound k s := by
  induction h with
  | refl => exact hb
  | tail _ hstep ih => exact KeyExecBound_step ih hstep

/-! ## Verifier characterization -/

theorem verify_none_eq {orig dec : NDArray} (h : verify orig dec none = true) :
    dec = orig := by
  unfold verify at h
  simp only [Bool.and_eq_true, decide_eq_true_eq] at h
  obtain ⟨⟨h1, h2⟩, h3⟩ := h
  cases orig
  cases dec
  simp_all


/-! ## Arithmetic helpers for the time formatter -/

theorem floor_natCast_div_natCast (a b : ℕ) :
    ⌊(a : ℚ) / (b : ℚ)⌋ = ((a / b : ℕ) : ℤ) := by
  rw [← Nat.floor_div_eq_div (α := ℚ) a b]
  exact (Int.natCast_floor_eq_floor (by positivity)).symm

/-! ## Claim theorems -/

/-- C1: for every key `k`, whenever the fingerprint cache `get` operation
answers a result `R` in an orchestrator state reachable from a data
well-formed one, `R.algorithm_version` equals `k.algorithm_version` and
`R.dataset_version` equals `k.dataset_version`. -/
theorem cache_get_version_consistency (cfg : Config) (s0 s : OrchState)
    (k : BenchmarkKey) (r : BenchmarkResult) (c' : FingerprintCache)
    (hwf : DataWF cfg s0) (hreach : Reach cfg s0 s)
    (hget : s.cache.get k = (some r, c')) :
    r.algorithm_version = k.algorithm_version ∧
    r.dataset_version = k.dataset_version := by
  have hwf' := DataWF_reach hwf hreach
  have hmem := get_some_mem hget
  have hok := hwf'.1 (k, r) hmem
  exact ⟨hok.2.1, hok.2.2⟩

/-- C3: in every reachable orchestrator state, every result present in
the result store went through a successful verification; executions whose
verification failed or did not happen are never persisted. -/
theorem store_only_verified_results (cfg : Config) (s0 s : OrchState)
    (hwf : DataWF cfg s0) (hreach : Reach cfg s0 s)
    (r : BenchmarkResult) (hr : r ∈ s.store) : resultVerified cfg r :=
  ((DataWF_reach hwf hreach).2 r hr).1

/-- C2: for every algorithm satisfying the spec's round-trip contract
(the Verifier accepts the decoded output of every valid input) and every
valid input array x: when the algorithm is not tagged lossy, or declares
no tolerance, decode (encode x) equals x exactly (element-wise, with
matching shape and dtype); when it is tagged lossy with a declared
tolerance, decode (encode x) is within that tolerance of x, element-wise
with both absolute and relative bounds. -/
theorem verified_roundtrip_within_tolerance (a : AlgorithmComponent)
    (valid : NDArray → Prop) (hc : RoundTripContract a valid)
    (x : NDArray) (hx : valid x) :
    (("lossy" ∈ a.tags → a.tolerance = none) →
      a.decode (a.encode x) = x) ∧
    (∀ t, "lossy" ∈ a.tags → a.tolerance = some t →
      verify x (a.decode (a.encode x)) (some t) = true) := by
  have hv := hc x hx
  constructor
  · intro hnone
    by_cases hl : "lossy" ∈ a.tags
    · unfold effectiveTolerance at hv
      rw [if_pos hl, hnone hl] at hv
      exact verify_none_eq hv
    · unfold effectiveTolerance at hv
      rw [if_neg hl] at hv
      exact verify_none_eq hv
  · intro t hl ht
    unfold effectiveTolerance at hv
    rw [if_pos hl, ht] at hv
    exact hv

/-- C5: for every stored result, the compression ratio equals the
original size divided by the compressed size and is strictly positive. -/
theorem compression_ratio_definition_positive (cfg : Config) (s0 s : OrchState)
    (hwf : DataWF cfg s0) (hreach : Reach cfg s0 s)
    (r : BenchmarkResult) (hr : r ∈ s.store) :
    r.compression_ratio = (r.original_size : ℚ) / (r.compressed_size : ℚ) ∧
    0 < r.compression_ratio :=
  ((DataWF_reach hwf hreach).2 r hr).2

/-- C4: first, a key that starts uncached and unexecuted and ends a run
stored is cached at the start of the second run over unchanged
components, the cumulative engine execution count for it stays exactly
one throughout the second run, and the key cannot fail again; second, in
any single run starting with an empty execution log, at most one
execution per key ever happens, under any interleaving of concurrent
worker steps. -/
theorem idempotent_rerun_single_execution :
    (∀ (cfg : Config) (s0 s1 s2 : OrchState) (k : BenchmarkKey),
      s0.execLog.count k = 0 →
      s0.phase k = KeyPhase.pending →
      cacheLookup s0.cache k = none →
      Reach cfg s0 s1 →
      s1.phase k = KeyPhase.stored →
      Reach cfg (resetRun s1) s2 →
      cacheLookup (resetRun s1).cache k ≠ none ∧
      s2.execLog.count k = 1 ∧
      s2.phase k ≠ KeyPhase.failed) ∧
    (∀ (cfg : Config) (s0 s : OrchState) (k : BenchmarkKey),
      s0.execLog = [] →
      Reach cfg s0 s →
      s.execLog.count k ≤ 1) := by
  constructor
  · intro cfg s0 s1 s2 k hcount hpend hcache h01 hstored h12
    have hinv0 : KeyInv k s0 := by
      unfold KeyInv
      rw [hpend]
      exact ⟨hcount, hcache⟩
    have hinv1 := KeyInv_reach hinv0 h01
    obtain ⟨h1cnt, h1look⟩ := KeyInv_elim_stored hstored hinv1
    have hres : KeyInvCached k (resetRun s1) := by
      refine ⟨?_, ?_, ?_, ?_⟩
      · show s1.execLog.count k = 1
        exact h1cnt
      · show cacheLookup s1.cache k ≠ none
        exact h1look
      · show KeyPhase.pending ≠ KeyPhase.reserved
        exact fun h => KeyPhase.noConfusion h
      · show KeyPhase.pending ≠ KeyPhase.failed
        exact fun h => KeyPhase.noConfusion h
    have hinv2 := KeyInvCached_reach hres h12
    exact ⟨hres.2.1, hinv2.1, hinv2.2.2.2⟩
  · intro cfg s0 s k hlog hreach
    have hb0 : KeyExecBound k s0 := by
      constructor
      · rw [hlog]
        simp
      · intro _
        rw [hlog]
        simp
    exact (KeyExecBound_reach hb0 hreach).1

/-- C6: over every orchestrator run, the completed counter is
monotonically non-decreasing across reachable states and never exceeds
the total counter. -/
theorem progress_monotone_bounded (cfg : Config) (s0 s s' : OrchState)
    (hnd : cfg.keys.Nodup) (hwf : ProgressWF cfg s0)
    (h1 : Reach cfg s0 s) (h2 : Reach cfg s s') :
    s.progress.completed_count ≤ s'.progress.completed_count ∧
    s'.progress.completed_count ≤ s'.progress.total_count := by
  have hwf' : ProgressWF cfg s' :=
    ProgressWF_reach hnd (ProgressWF_reach hnd hwf h1) h2
  refine ⟨completed_mono_reach h2, ?_⟩
  rw [hwf'.1, hwf'.2]
  unfold terminalCount
  exact List.length_filter_le _ _


/-- C7: the persisted result record served to the dashboard has exactly
the spec's fields, in order, and the spec's types realise to exactly the
TypeScript types of the `BenchmarkResult` interface the dashboard
consumes. -/
theorem result_record_field_agreement :
    benchmarkResultFieldsTs =
      specResultFields.map (fun p => (p.1, specTypeToTs p.2)) := by
  rfl

/-- C8: the progress record consumed by the monitor has exactly the
spec's fields realised as the `BenchmarkStatus` TypeScript interface, the
completed-benchmark summaries carry exactly the spec's field names, and
the monitor fetches once immediately and then at a fixed 30-second
interval. -/
theorem monitor_status_fields_and_poll_schedule :
    benchmarkStatusFieldsTs =
      specStatusFields.map (fun p => (p.1, specTypeToTs p.2)) ∧
    completedBenchmarkFieldsTs.map (fun p => p.1) = specSummaryFieldNames ∧
    monitorPollIntervalMs = 30 * 1000 ∧
    monitorFetchTimeMs 0 = 0 ∧
    ∀ n : ℕ, monitorFetchTimeMs (n + 1) =
      monitorFetchTimeMs n + monitorPollIntervalMs := by
  refine ⟨rfl, rfl, rfl, rfl, ?_⟩
  intro n
  unfold monitorFetchTimeMs
  rw [Nat.succ_mul]

/-- C9: on the Algorithm page with loaded benchmark data, the page shows
"Algorithm not found" exactly when no registered algorithm carries the
URL name, and otherwise its results table holds exactly the results whose
algorithm field equals the matched algorithm's name. -/
theorem algorithm_page_table_exactness (algs : List AlgorithmMeta)
    (d : BenchmarkData) (name : String) :
    (algorithmPage algs (some d) name = AlgorithmPageView.notFound ↔
      ∀ a ∈ algs, a.name ≠ name) ∧
    (∀ alg tbl,
      algorithmPage algs (some d) name = AlgorithmPageView.found alg tbl →
      ∃ l, tbl = some l ∧
        ∀ r, r ∈ l ↔ (r ∈ d.results ∧ r.algorithm = alg.name)) := by
  constructor
  · constructor
    · intro h a ha hn
      unfold algorithmPage at h
      cases hf : algs.find? (fun a => decide (a.name = name)) with
      | none =>
          rw [List.find?_eq_none] at hf
          exact hf a ha (by simp [hn])
      | some alg =>
          rw [hf] at h
          exact AlgorithmPageView.noConfusion h
    · intro hall
      unfold algorithmPage
      cases hf : algs.find? (fun a => decide (a.name = name)) with
      | none => rfl
      | some alg =>
          have hmem : alg ∈ algs := List.mem_of_find?_eq_some hf
          have hname : alg.name = name := by
            have := List.find?_some hf
            simpa using this
          exact absurd hname (hall alg hmem)
  · intro alg tbl heq
    unfold algorithmPage at heq
    cases hf : algs.find? (fun a => decide (a.name = name)) with
    | none =>
        rw [hf] at heq
        exact AlgorithmPageView.noConfusion heq
    | some alg0 =>
        rw [hf] at heq
        injection heq with h1 h2
        subst h1
        refine ⟨d.results.filter (fun r => decide (r.algorithm = alg0.name)), ?_, ?_⟩
        · rw [← h2]
          rfl
        · intro r
          simp [List.mem_filter]

/-- C10: for every non-negative number of seconds, `formatTime` renders
"Hh Mm Ss" with H the floor of s/3600, M the floor of (s mod 3600)/60 and
S the floor of s mod 60, and for integer seconds the three components
recompose to s without loss. -/
theorem format_time_floor_decomposition (s : ℚ) (hs : 0 ≤ s) :
    formatTime s =
      toString ⌊s / 3600⌋ ++ "h " ++
        toString ⌊(s - 3600 * (⌊s / 3600⌋ : ℚ)) / 60⌋ ++ "m " ++
        toString ⌊s - 60 * (⌊s / 60⌋ : ℚ)⌋ ++ "s" ∧
    ∀ n : ℕ, s = (n : ℚ) →
      ⌊s / 3600⌋ * 3600 + ⌊(s - 3600 * (⌊s / 3600⌋ : ℚ)) / 60⌋ * 60 +
        ⌊s - 60 * (⌊s / 60⌋ : ℚ)⌋ = (n : ℤ) := by
  have h3600 : jsMod s 3600 = s - 3600 * (⌊s / 3600⌋ : ℚ) := by
    unfold jsMod jsTrunc
    rw [if_pos (div_nonneg hs (by norm_num))]
  have h60 : jsMod s 60 = s - 60 * (⌊s / 60⌋ : ℚ) := by
    unfold jsMod jsTrunc
    rw [if_pos (div_nonneg hs (by norm_num))]
  constructor
  · unfold formatTime
    rw [h3600, h60]
  · intro n hn
    subst hn
    have hc3600 : ((3600 : ℕ) : ℚ) = (3600 : ℚ) := by norm_num
    have hc60 : ((60 : ℕ) : ℚ) = (60 : ℚ) := by norm_num
    have hf1 : ⌊(n : ℚ) / 3600⌋ = ((n / 3600 : ℕ) : ℤ) := by
      rw [← hc3600]
      exact floor_natCast_div_natCast n 3600
    have hf60 : ⌊(n : ℚ) / 60⌋ = ((n / 60 : ℕ) : ℤ) := by
      rw [← hc60]
      exact floor_natCast_div_natCast n 60
    have hdm1 : (3600 : ℚ) * ((n / 3600 : ℕ) : ℚ) + ((n % 3600 : ℕ) : ℚ) = (n : ℚ) := by
      exact_mod_cast congrArg (fun m : ℕ => (m : ℚ)) (Nat.div_add_mod n 3600)
    have hdm2 : (60 : ℚ) * ((n / 60 : ℕ) : ℚ) + ((n % 60 : ℕ) : ℚ) = (n : ℚ) := by
      exact_mod_cast congrArg (fun m : ℕ => (m : ℚ)) (Nat.div_add_mod n 60)
    have hmod1 : (n : ℚ) - 3600 * (((n / 3600 : ℕ) : ℤ) : ℚ) = ((n % 3600 : ℕ) : ℚ) := by
      rw [Int.cast_natCast]
      linarith [hdm1]
    have hmod2 : (n : ℚ) - 60 * (((n / 60 : ℕ) : ℤ) : ℚ) = ((n % 60 : ℕ) : ℚ) := by
      rw [Int.cast_natCast]
      linarith [hdm2]
    have hf2 : ⌊((n % 3600 : ℕ) : ℚ) / 60⌋ = ((n % 3600 / 60 : ℕ) : ℤ) := by
      rw [← hc60]
      exact floor_natCast_div_natCast (n % 3600) 60
    rw [hf1, hf60, hmod1, hmod2, hf2, Int.floor_natCast]
    have harith : n / 3600 * 3600 + n % 3600 / 60 * 60 + n % 60 = n := by omega
    exact_mod_cast harith


/-! ## Witnesses -/

theorem witResult_ResultOk : ResultOk witConfig witResult := by
  refine ⟨⟨witAlgorithm, by simp [witConfig], witDataset, by simp [witConfig],
    rfl, rfl, by decide⟩, rfl, ?_⟩
  exact div_pos
    (by exact_mod_cast (by decide : 0 < arrayByteSize witDataset.generate))
    (by exact_mod_cast (by decide : 0 < (witAlgorithm.encode witDataset.generate).length))

theorem witStateCached_DataWF : DataWF witConfig witStateCached := by
  constructor
  · intro e he
    simp only [witStateCached, cacheEntries, List.append_nil, List.mem_singleton] at he
    subst he
    exact ⟨witResult_ResultOk, rfl, rfl⟩
  · intro r hr
    simp only [witStateCached, List.mem_singleton] at hr
    subst hr
    exact witResult_ResultOk

/-- Witness for C1 at the concrete cached state. -/
theorem cache_get_version_consistency_witness :
    DataWF witConfig witStateCached ∧
    Reach witConfig witStateCached witStateCached ∧
    witStateCached.cache.get witKey = (some witResult, witStateCached.cache) ∧
    (witResult.algorithm_version = witKey.algorithm_version ∧
     witResult.dataset_version = witKey.dataset_version) :=
  ⟨witStateCached_DataWF, Relation.ReflTransGen.refl, rfl,
   cache_get_version_consistency witConfig witStateCached witStateCached witKey
     witResult witStateCached.cache witStateCached_DataWF
     Relation.ReflTransGen.refl rfl⟩

/-- Witness for C3 at the concrete cached state. -/
theorem store_only_verified_results_witness :
    DataWF witConfig witStateCached ∧
    Reach witConfig witStateCached witStateCached ∧
    witResult ∈ witStateCached.store ∧
    resultVerified witConfig witResult :=
  ⟨witStateCached_DataWF, Relation.ReflTransGen.refl,
   List.mem_singleton.mpr rfl,
   store_only_verified_results witConfig witStateCached witStateCached
     witStateCached_DataWF Relation.ReflTransGen.refl witResult
     (List.mem_singleton.mpr rfl)⟩

/-- Witness for C2 at the concrete lossless algorithm and its array. -/
theorem verified_roundtrip_within_tolerance_witness :
    RoundTripContract witAlgorithm (fun x => x = witArray) ∧
    witArray = witArray ∧
    ((("lossy" ∈ witAlgorithm.tags → witAlgorithm.tolerance = none) →
       witAlgorithm.decode (witAlgorithm.encode witArray) = witArray) ∧
     (∀ t, "lossy" ∈ witAlgorithm.tags → witAlgorithm.tolerance = some t →
       verify witArray (witAlgorithm.decode (witAlgorithm.encode witArray))
         (some t) = true)) :=
  ⟨fun x hx => by subst hx; decide, rfl,
   verified_roundtrip_within_tolerance witAlgorithm (fun x => x = witArray)
     (fun x hx => by subst hx; decide) witArray rfl⟩

/-- Witness for C5 at the concrete cached state. -/
theorem compression_ratio_definition_positive_witness :
    DataWF witConfig witStateCached ∧
    Reach witConfig witStateCached witStateCached ∧
    witResult ∈ witStateCached.store ∧
    (witResult.compression_ratio =
      (witResult.original_size : ℚ) / (witResult.compressed_size : ℚ) ∧
     0 < witResult.compression_ratio) :=
  ⟨witStateCached_DataWF, Relation.ReflTransGen.refl,
   List.mem_singleton.mpr rfl,
   compression_ratio_definition_positive witConfig witStateCached witStateCached
     witStateCached_DataWF Relation.ReflTransGen.refl witResult
     (List.mem_singleton.mpr rfl)⟩

/-- Witness for C6 at the concrete cached state. -/
theorem progress_monotone_bounded_witness :
    witConfig.keys.Nodup ∧
    ProgressWF witConfig witStateCached ∧
    Reach witConfig witStateCached witStateCached ∧
    (witStateCached.progress.completed_count ≤
      witStateCached.progress.completed_count ∧
     witStateCached.progress.completed_count ≤
      witStateCached.progress.total_count) :=
  ⟨by simp [witConfig], ⟨by decide, by decide⟩, Relation.ReflTransGen.refl,
   progress_monotone_bounded witConfig witStateCached witStateCached witStateCached
     (by simp [witConfig]) ⟨by decide, by decide⟩
     Relation.ReflTransGen.refl Relation.ReflTransGen.refl⟩

/-- Witness for C4: a concrete reserve-then-execute run followed by a
reset, exercising both conjuncts of the idempotence theorem. -/
theorem idempotent_rerun_single_execution_witness :
    (witState0.execLog.count witKey = 0 ∧
     witState0.phase witKey = KeyPhase.pending ∧
     cacheLookup witState0.cache witKey = none ∧
     Reach witConfig witState0 witState2 ∧
     witState2.phase witKey = KeyPhase.stored ∧
     (cacheLookup (resetRun witState2).cache witKey ≠ none ∧
      (resetRun witState2).execLog.count witKey = 1 ∧
      (resetRun witState2).phase witKey ≠ KeyPhase.failed)) ∧
    (witState0.execLog = [] ∧ witState0.execLog.count witKey ≤ 1) := by
  have hstep1 : Step witConfig witState0 witState1 :=
    Step.reserve witState0 witKey { localEntries := [], remoteEntries := [] }
      (List.mem_singleton.mpr rfl) rfl rfl
  have hstep2 : Step witConfig witState1 witState2 :=
    Step.execSuccess witState1 witKey witAlgorithm witDataset 1 1 7 2 "t2" true
      (List.mem_singleton.mpr rfl) (by decide) rfl rfl (by decide) (by decide)
      (by decide) (by norm_num) (by norm_num)
  have hreach : Reach witConfig witState0 witState2 :=
    Relation.ReflTransGen.head hstep1 (Relation.ReflTransGen.single hstep2)
  have hstored : witState2.phase witKey = KeyPhase.stored := by decide
  refine ⟨⟨rfl, rfl, rfl, hreach, hstored, ?_⟩, rfl, ?_⟩
  · exact idempotent_rerun_single_execution.1 witConfig witState0 witState2
      (resetRun witState2) witKey rfl rfl rfl hreach hstored
      Relation.ReflTransGen.refl
  · exact idempotent_rerun_single_execution.2 witConfig witState0 witState0 witKey
      rfl Relation.ReflTransGen.refl

/-- Witness for C8: the second fetch happens one interval after the
first. -/
theorem monitor_status_fields_and_poll_schedule_witness :
    monitorFetchTimeMs 1 = monitorFetchTimeMs 0 + monitorPollIntervalMs :=
  monitor_status_fields_and_poll_schedule.2.2.2.2 0

/-- Witness for C9 at a concrete algorithm list and data set. -/
theorem algorithm_page_table_exactness_witness :
    (algorithmPage [witAlgMeta] (some witData) "copy" =
        AlgorithmPageView.notFound ↔
      ∀ a ∈ [witAlgMeta], a.name ≠ "copy") ∧
    (∀ alg tbl,
      algorithmPage [witAlgMeta] (some witData) "copy" =
        AlgorithmPageView.found alg tbl →
      ∃ l, tbl = some l ∧
        ∀ r, r ∈ l ↔ (r ∈ witData.results ∧ r.algorithm = alg.name)) :=
  algorithm_page_table_exactness [witAlgMeta] witData "copy"

/-- Witness for C10 at 3725 seconds. -/
theorem format_time_floor_decomposition_witness :
    (0 : ℚ) ≤ 3725 ∧
    (formatTime 3725 =
      toString ⌊(3725 : ℚ) / 3600⌋ ++ "h " ++
        toString ⌊((3725 : ℚ) - 3600 * (⌊(3725 : ℚ) / 3600⌋ : ℚ)) / 60⌋ ++ "m " ++
        toString ⌊(3725 : ℚ) - 60 * (⌊(3725 : ℚ) / 60⌋ : ℚ)⌋ ++ "s" ∧
    ∀ n : ℕ, (3725 : ℚ) = (n : ℚ) →
      ⌊(3725 : ℚ) / 3600⌋ * 3600 +
        ⌊((3725 : ℚ) - 3600 * (⌊(3725 : ℚ) / 3600⌋ : ℚ)) / 60⌋ * 60 +
        ⌊(3725 : ℚ) - 60 * (⌊(3725 : ℚ) / 60⌋ : ℚ)⌋ = (n : ℤ)) :=
  ⟨by norm_num, format_time_floor_decomposition 3725 (by norm_num)⟩
